import Mathlib

/-!
Shallow embedding of `mux.go` from the go-tempura repository, package `tempura`.

Modelling conventions:
* Go strings are modelled as `List Char` (`GoStr`); `strings.HasPrefix` /
  `strings.TrimPrefix` become `List.isPrefixOf` and a conditional drop.
* Go's `any` result values are a type parameter `V`, lookup errors a type
  parameter `E`; a Go `error` result is `Option E` (`none` = nil).
* `context.Context` is an opaque type parameter `C`; cancellation is advisory
  in the source (it never changes which value is returned), so it is carried
  but not interpreted.
* The Go registry `map[Prefix]LookupFunc` is modelled as an association list:
  the list order stands for the (unspecified, per-range randomized) iteration
  order of the map.  Claims about behaviour under re-iteration quantify over
  permutations of this list.
* The `LookupFunc` interface is sealed inside the package by the unexported
  method `_isSupportedLookupFunc`, so exactly the four function shapes below
  can inhabit a registry; the `default` branches of the type switches in
  `MultiLookupContext.FuncMapValue` and the validators' loops that guard
  against other dynamic types are therefore unreachable for the contextual
  mux and are modelled only where they are reachable (the sequential
  `FuncMapValue` reaches its `default` branch on contextual shapes).
-/

abbrev GoStr := List Char

/-- Go `strings.TrimPrefix s pre`: drop `pre` if it is a prefix, else `s`. -/
def goTrim (s pre : GoStr) : GoStr :=
  if pre.isPrefixOf s then s.drop pre.length else s

/-- Prefix implementations of `mux.go`: `DotPrefix` / `SlashPrefix`
(a label plus a fixed separator appended by `fmt.Sprintf`). -/
inductive Pfx where
  | dot (label : GoStr)
  | slash (label : GoStr)
deriving DecidableEq, Repr

/-- The label printed by `fmt.Sprintf("%s", k)` (used by `prefixes()`). -/
def Pfx.label : Pfx → GoStr
  | .dot l => l
  | .slash l => l

/-- The full marker `fmt.Sprintf("%s.", p)` resp. `fmt.Sprintf("%s/", p)`. -/
def Pfx.marker : Pfx → GoStr
  | .dot l => l ++ ['.']
  | .slash l => l ++ ['/']

/-- `Match` of `DotPrefix` / `SlashPrefix`: `strings.HasPrefix(s, marker)`. -/
def Pfx.matchKey (p : Pfx) (s : GoStr) : Bool :=
  p.marker.isPrefixOf s

/-- `Strip` of `DotPrefix` / `SlashPrefix`: `strings.TrimPrefix(s, marker)`. -/
def Pfx.strip (p : Pfx) (s : GoStr) : GoStr :=
  goTrim s p.marker

/-- The four lookup-function shapes admitted by the sealed `LookupFunc`
interface: `LookupAny`, `LookupAnyWithError`, `LookupAnyWithContext`,
`LookupAnyWithContextError`. -/
inductive LookupFunc (V E C : Type) where
  | plain (fn : GoStr → V × Bool)
  | fallible (fn : GoStr → V × Bool × Option E)
  | contextual (fn : C → GoStr → V × Bool)
  | contextualFallible (fn : C → GoStr → V × Bool × Option E)

/-- Shapes legal for the sequential mux (`LookupAny`, `LookupAnyWithError`). -/
def LookupFunc.isPure : LookupFunc V E C → Bool
  | .plain _ => true
  | .fallible _ => true
  | .contextual _ => false
  | .contextualFallible _ => false

/-- Shapes that require a bound context. -/
def LookupFunc.isContextual (fn : LookupFunc V E C) : Bool :=
  !fn.isPure

/-- `type MultiLookup map[Prefix]LookupFunc`, as an association list whose
order stands for the map's iteration order. -/
abbrev MultiLookup (V E C : Type) := List (Pfx × LookupFunc V E C)

/-- Errors produced by the two validators:
`ErrNoFunctionRegistered`, `ErrContextUntypedNil`, and
`InvalidFunctionError` (whose `Prefix` field we keep; the `Type` and `Func`
fields carry no information the claims touch). -/
inductive ValErr where
  | noFunctionRegistered
  | contextNil
  | invalidFunction (p : Pfx)
deriving DecidableEq, Repr

/-- Outcomes of a resolution call, decoding the Go pair `(any, error)`:
`success v` = `(v, nil)`; `failure e` = `(nil, e)` for a lookup error;
`notFound` = `MatchFailedError{Args, Prefixes}`; `invalidFunc p` = the
wrapped `InvalidFunctionError` returned from a resolver's `default` branch. -/
inductive Outcome (V E : Type) where
  | success (v : V)
  | failure (e : E)
  | notFound (args : List GoStr) (pfxLabels : List GoStr)
  | invalidFunc (p : Pfx)
deriving DecidableEq, Repr

/-- `MultiLookup.prefixes()`: the labels of all registered prefixes, in
iteration order (`fmt.Sprintf("%s", k)` prints the underlying label). -/
def MultiLookup.prefixes (m : MultiLookup V E C) : List GoStr :=
  m.map (fun e => e.1.label)

/-- The loop body of `MultiLookup.Validate` (lines 105-121): walk the entries;
`LookupAny`/`LookupAnyWithError` are accepted, the contextual shapes hit the
`LookupAnyWithContext, LookupAnyWithContextError` case and return a wrapped
`InvalidFunctionError{Prefix: k}`. -/
def validateEntries : MultiLookup V E C → Option ValErr
  | [] => none
  | (p, fn) :: rest =>
    match fn with
    | .plain _ => validateEntries rest
    | .fallible _ => validateEntries rest
    | .contextual _ => some (.invalidFunction p)
    | .contextualFallible _ => some (.invalidFunction p)

/-- `MultiLookup.Validate` (lines 101-124). -/
def MultiLookup.Validate (m : MultiLookup V E C) : Option ValErr :=
  if m.isEmpty then some .noFunctionRegistered
  else validateEntries m

/-- The inner loop of `MultiLookup.FuncMapValue` over the registry for one
argument (lines 129-156): skip non-matching prefixes; `LookupAny` returns on
`ok` and otherwise keeps scanning; `LookupAnyWithError` returns on a non-nil
error or on `ok` and otherwise keeps scanning; contextual shapes hit the
`default` branch, returning a wrapped `InvalidFunctionError`.  `none` means
the loop fell through to the next argument. -/
def seqArg : MultiLookup V E C → GoStr → Option (Outcome V E)
  | [], _ => none
  | (p, fn) :: rest, arg =>
    if p.matchKey arg then
      match fn with
      | .plain f =>
        let r := f (p.strip arg)
        if r.2 then some (.success r.1) else seqArg rest arg
      | .fallible f =>
        let r := f (p.strip arg)
        match r.2.2 with
        | some e => some (.failure e)
        | none => if r.2.1 then some (.success r.1) else seqArg rest arg
      | .contextual _ => some (.invalidFunc p)
      | .contextualFallible _ => some (.invalidFunc p)
    else seqArg rest arg

/-- The outer loop of `MultiLookup.FuncMapValue` over the arguments. -/
def seqWalk (m : MultiLookup V E C) : List GoStr → Option (Outcome V E)
  | [] => none
  | a :: rest =>
    match seqArg m a with
    | some o => some o
    | none => seqWalk m rest

/-- `MultiLookup.FuncMapValue` (lines 126-161): first success wins; if the
walk falls through, `MatchFailedError{Args: args, Prefixes: m.prefixes()}`. -/
def MultiLookup.FuncMapValue (m : MultiLookup V E C) (args : List GoStr) :
    Outcome V E :=
  (seqWalk m args).getD (.notFound args m.prefixes)

/-- `MultiLookupContext` (lines 181-184); `Ctx = none` models an untyped-nil
`context.Context`. -/
structure MultiLookupContext (V E C : Type) where
  lookup : MultiLookup V E C
  Ctx : Option C

/-- `MultiLookupContext.Validate` (lines 186-207): the nil-context check runs
first, then the emptiness check; all four function shapes are accepted by the
loop (its `default` branch is unreachable for the sealed interface). -/
def MultiLookupContext.Validate (m : MultiLookupContext V E C) : Option ValErr :=
  match m.Ctx with
  | none => some .contextNil
  | some _ =>
    if m.lookup.isEmpty then some .noFunctionRegistered
    else none

/-- One value sent on a completion cell: the `result` struct of
`MultiLookupContext.FuncMapValue` (lines 211-215). -/
structure Write (V E : Type) where
  val : V
  ok : Bool
  err : Option E
deriving DecidableEq, Repr

/-- Run one registered function on a stripped key (the four `case` bodies of
the dispatch loop, lines 235-262); inline shapes and dispatched goroutines
send exactly one `result` each, with `err = nil` for the error-less shapes. -/
def invokeFn (c : C) : LookupFunc V E C → GoStr → Write V E
  | .plain f, s => let r := f s; ⟨r.1, r.2, none⟩
  | .fallible f, s => let r := f s; ⟨r.1, r.2.1, r.2.2⟩
  | .contextual f, s => let r := f c s; ⟨r.1, r.2, none⟩
  | .contextualFallible f, s => let r := f c s; ⟨r.1, r.2.1, r.2.2⟩

/-- The writes targeted at one argument's completion cell: one per matching
registry entry, in iteration order (dispatch loop, lines 229-268).  Each
branch of the type switch performs exactly one send on `results[index]`. -/
def dispatchCell (m : MultiLookup V E C) (c : C) (arg : GoStr) :
    List (Write V E) :=
  m.filterMap (fun e =>
    if e.1.matchKey arg then some (invokeFn c e.2 (e.1.strip arg)) else none)

/-- All completion cells of one call, in candidate-key order (lines 216-219
allocate one buffered-capacity-1 channel per argument). -/
def concCells (m : MultiLookup V E C) (c : C) (args : List GoStr) :
    List (List (Write V E)) :=
  args.map (dispatchCell m c)

/-- Observable results of a `MultiLookupContext.FuncMapValue` call: a
returned `(any, error)` pair, a call that blocks forever on an unwritten
cell, or a run that panics. -/
inductive COutcome (V E : Type) where
  | ok (o : Outcome V E)
  | hang
  | panicked
deriving DecidableEq, Repr

/-- The collection loop (lines 272-282): read the cells strictly in
candidate-key order.  A cell nobody ever writes blocks the `select` forever
(`hang`); an error wins, then a `found` value; otherwise move on.  Falling
off the end yields `MatchFailedError` (passed in as `fb`). -/
def drainCells (fb : Outcome V E) : List (List (Write V E)) → COutcome V E
  | [] => .ok fb
  | cell :: rest =>
    match cell with
    | [] => .hang
    | w :: _ =>
      match w.err with
      | some e => .ok (.failure e)
      | none => if w.ok then .ok (.success w.val) else drainCells fb rest

/-- `MultiLookupContext.FuncMapValue` (lines 209-285).  A nil bound context
makes `context.WithCancel(m.Ctx)` panic before any dispatch.  When some
argument matches two or more entries, its capacity-1 cell receives a second
send after `close(promise)`, which panics (`send on closed channel`); the
exact interleaving of that crash with the collection loop is racy, and the
embedding records any such call as `panicked`.  No theorem below relies on
that branch except to rule it out by hypothesis. -/
def MultiLookupContext.FuncMapValue (mc : MultiLookupContext V E C)
    (args : List GoStr) : COutcome V E :=
  match mc.Ctx with
  | none => .panicked
  | some c =>
    let cells := concCells mc.lookup c args
    if cells.any (fun ws => 2 ≤ ws.length) then .panicked
    else drainCells (.notFound args mc.lookup.prefixes) cells

/-- The sequence of cell indices on which the collection loop initiates a
receive, in the order it initiates them (instrumentation of lines 272-282):
a never-written cell is consulted (and blocks); a decisive cell (error or
`found`) is the last consulted; otherwise the loop moves to the next index. -/
def drainTraceAux (i : Nat) : List (List (Write V E)) → List Nat
  | [] => []
  | cell :: rest =>
    match cell with
    | [] => [i]
    | w :: _ =>
      if w.err.isSome || w.ok then [i] else i :: drainTraceAux (i + 1) rest

/-- The consultation trace of a full call's cells. -/
def drainTrace (cells : List (List (Write V E))) : List Nat :=
  drainTraceAux 0 cells

/-- Convert a Lean string literal to the `List Char` model of a Go string. -/
def gs (s : String) : GoStr := s.toList

/-- Classify one completion-cell write the way both the sequential inner loop
and the collection loop do: an error decides, then a `found` value, otherwise
the scan moves on. -/
def stepOfWrite (w : Write V E) : Option (Outcome V E) :=
  match w.err with
  | some e => some (.failure e)
  | none => if w.ok then some (.success w.val) else none

/-- Example registry: a single `Plain` entry under slash-prefix `a` that
echoes the stripped key with `found = true`. -/
def mEcho : MultiLookup String String Unit :=
  [(.slash (gs "a"), .plain (fun k => (String.mk k, true)))]

/-- Example registry: a single `Plain` entry under slash-prefix `a` that
always reports `found = false`. -/
def mMiss : MultiLookup String String Unit :=
  [(.slash (gs "a"), .plain (fun k => (String.mk k, false)))]

/-- Example registry with two distinct dot-prefixes, `x` and `x.y`, that both
match the candidate key `x.y.z`; legal keys of one Go map. -/
def mOverlap : MultiLookup String String Unit :=
  [(.dot (gs "x"), .plain (fun _ => ("1", true))),
   (.dot (gs "x.y"), .plain (fun _ => ("2", true)))]

/-- The registry `mOverlap` under the opposite map-iteration order. -/
def mOverlapRev : MultiLookup String String Unit :=
  [(.dot (gs "x.y"), .plain (fun _ => ("2", true))),
   (.dot (gs "x"), .plain (fun _ => ("1", true)))]

/-- Example registry holding one `Contextual` entry under dot-prefix
`secret`. -/
def mCtx : MultiLookup String String Unit :=
  [(.dot (gs "secret"), .contextual (fun _ k => (String.mk k, true)))]

theorem dispatchCell_cons (e : Pfx × LookupFunc V E C) (m : MultiLookup V E C)
    (c : C) (a : GoStr) :
    dispatchCell (e :: m) c a =
      if e.1.matchKey a then invokeFn c e.2 (e.1.strip a) :: dispatchCell m c a
      else dispatchCell m c a := by
  unfold dispatchCell
  by_cases h : e.1.matchKey a <;> simp [List.filterMap_cons, h]

theorem dispatchCell_length (m : MultiLookup V E C) (c : C) (a : GoStr) :
    (dispatchCell m c a).length = m.countP (fun e => e.1.matchKey a) := by
  induction m with
  | nil => rfl
  | cons e rest ih =>
    rw [dispatchCell_cons]
    by_cases h : e.1.matchKey a <;>
      simp [h, List.countP_cons, ih]

theorem seqArg_eq_none_of_no_match (m : MultiLookup V E C) (a : GoStr)
    (h : ∀ e ∈ m, e.1.matchKey a = false) : seqArg m a = none := by
  induction m with
  | nil => rfl
  | cons e rest ih =>
    have he : e.1.matchKey a = false := h e (List.mem_cons_self e rest)
    have hrest : ∀ q ∈ rest, q.1.matchKey a = false := fun q hq =>
      h q (List.mem_cons_of_mem e hq)
    obtain ⟨p, fn⟩ := e
    simp only [seqArg, he, Bool.false_eq_true, if_false]
    exact ih hrest

theorem countP_match_zero_iff (m : MultiLookup V E C) (a : GoStr) :
    m.countP (fun e => e.1.matchKey a) = 0 ↔ ∀ e ∈ m, e.1.matchKey a = false := by
  rw [List.countP_eq_zero]
  simp

theorem seqArg_single_match (m : MultiLookup V E C) (c : C) (a : GoStr)
    (hpure : ∀ e ∈ m, e.2.isPure = true)
    (hone : m.countP (fun e => e.1.matchKey a) = 1) :
    ∃ w, dispatchCell m c a = [w] ∧ seqArg m a = stepOfWrite w := by
  induction m with
  | nil => simp at hone
  | cons e rest ih =>
    obtain ⟨p, fn⟩ := e
    by_cases h : p.matchKey a = true
    · have hnomatch : ∀ q ∈ rest, q.1.matchKey a = false := by
        simp [List.countP_cons, h] at hone
        exact fun q hq => hone q.1 q.2 hq
      have hzero : rest.countP (fun e => e.1.matchKey a) = 0 :=
        (countP_match_zero_iff rest a).mpr hnomatch
      have hcell : dispatchCell rest c a = [] := by
        have hl := dispatchCell_length rest c a
        rw [hzero] at hl
        exact List.length_eq_zero.mp hl
      have hrest : seqArg rest a = none := seqArg_eq_none_of_no_match rest a hnomatch
      refine ⟨invokeFn c fn (p.strip a), ?_, ?_⟩
      · rw [dispatchCell_cons]
        simp [h, hcell]
      · have hp : fn.isPure = true := hpure (p, fn) (List.mem_cons_self _ rest)
        cases fn with
        | plain f =>
          simp only [seqArg, h, if_pos, invokeFn, stepOfWrite, hrest]
        | fallible f =>
          simp only [seqArg, h, if_pos, invokeFn, stepOfWrite, hrest]
        | contextual f => simp [LookupFunc.isPure] at hp
        | contextualFallible f => simp [LookupFunc.isPure] at hp
    · have hb : p.matchKey a = false := by
        simpa using h
      have hone2 : rest.countP (fun e => e.1.matchKey a) = 1 := by
        simp [List.countP_cons, hb] at hone
        exact hone
      have hpure2 : ∀ q ∈ rest, q.2.isPure = true := fun q hq =>
        hpure q (List.mem_cons_of_mem _ hq)
      obtain ⟨w, hw1, hw2⟩ := ih hpure2 hone2
      refine ⟨w, ?_, ?_⟩
      · rw [dispatchCell_cons]
        simp [hb, hw1]
      · simp only [seqArg, hb, Bool.false_eq_true, if_false]
        exact hw2

theorem drain_eq_seqWalk (m : MultiLookup V E C) (c : C) (args : List GoStr)
    (fb : Outcome V E)
    (hpure : ∀ e ∈ m, e.2.isPure = true)
    (hone : ∀ a ∈ args, m.countP (fun e => e.1.matchKey a) = 1) :
    drainCells fb (concCells m c args) = .ok ((seqWalk m args).getD fb) := by
  induction args with
  | nil => rfl
  | cons a rest ih =>
    obtain ⟨w, hw1, hw2⟩ :=
      seqArg_single_match m c a hpure (hone a (List.mem_cons_self a rest))
    have hrest : ∀ b ∈ rest, m.countP (fun e => e.1.matchKey b) = 1 := fun b hb =>
      hone b (List.mem_cons_of_mem a hb)
    simp only [concCells, List.map_cons, hw1, drainCells, seqWalk, hw2]
    cases hwe : w.err with
    | some e => simp [stepOfWrite, hwe]
    | none =>
      cases hwo : w.ok with
      | true => simp [stepOfWrite, hwe, hwo]
      | false =>
        simp only [stepOfWrite, hwe, hwo, Bool.false_eq_true, if_false]
        exact ih hrest

theorem concCells_lengths_one (m : MultiLookup V E C) (c : C)
    (args : List GoStr)
    (hone : ∀ a ∈ args, m.countP (fun e => e.1.matchKey a) = 1) :
    ∀ ws ∈ concCells m c args, ws.length = 1 := by
  intro ws hws
  obtain ⟨a, ha, rfl⟩ := List.mem_map.mp hws
  rw [dispatchCell_length]
  exact hone a ha

/-- Claim C1 (amended): for every non-empty registry of only `Plain` and
`Fallible` entries, and every candidate-key list in which each key is matched
by exactly one registered entry, the Concurrent resolver (with any bound
context) returns exactly the Sequential resolver's outcome. -/
theorem seq_conc_equiv_of_unique_match (m : MultiLookup V E C) (c : C)
    (args : List GoStr)
    (hne : m ≠ [])
    (hpure : ∀ e ∈ m, e.2.isPure = true)
    (hone : ∀ a ∈ args, m.countP (fun e => e.1.matchKey a) = 1) :
    MultiLookupContext.FuncMapValue ⟨m, some c⟩ args =
      .ok (MultiLookup.FuncMapValue m args) := by
  have hlen := concCells_lengths_one m c args hone
  have hguard : (concCells m c args).any (fun ws => decide (2 ≤ ws.length)) = false := by
    rw [Bool.eq_false_iff]
    intro hcontra
    obtain ⟨ws, hws, h2⟩ := List.any_eq_true.mp hcontra
    have h1 := hlen ws hws
    have h2' := of_decide_eq_true h2
    omega
  simp only [MultiLookupContext.FuncMapValue, hguard, Bool.false_eq_true,
    if_false, MultiLookup.FuncMapValue]
  exact drain_eq_seqWalk m c args _ hpure hone

/-- Claim C1 witness: a concrete registry and key list satisfying the amended
hypotheses, on which the two resolvers agree. -/
theorem seq_conc_equiv_of_unique_match_witness :
    MultiLookupContext.FuncMapValue ⟨mEcho, some ()⟩ [gs "a/x"] =
      .ok (MultiLookup.FuncMapValue mEcho [gs "a/x"]) :=
  seq_conc_equiv_of_unique_match mEcho () [gs "a/x"]
    (by simp [mEcho]) (by decide) (by decide)

/-- Claim C1 counterexample: for the non-empty all-`Plain` registry `mEcho`
and candidate keys `["b/x", "a/x"]` (the first key matches no entry), the
Sequential resolver returns `Success "x"` while the Concurrent resolver
blocks forever on the first, never-written completion cell, so the two
resolvers do not return identical outcomes. -/
theorem seq_conc_differ_on_unmatched_key :
    MultiLookup.FuncMapValue mEcho [gs "b/x", gs "a/x"] = .success "x" ∧
    MultiLookupContext.FuncMapValue ⟨mEcho, some ()⟩ [gs "b/x", gs "a/x"] = .hang ∧
    MultiLookupContext.FuncMapValue ⟨mEcho, some ()⟩ [gs "b/x", gs "a/x"] ≠
      .ok (MultiLookup.FuncMapValue mEcho [gs "b/x", gs "a/x"]) :=
  ⟨by decide, by decide, by decide⟩

theorem drainTraceAux_range (cells : List (List (Write V E))) :
    ∀ i, ∃ k, drainTraceAux i cells = (List.range k).map (· + i) := by
  induction cells with
  | nil => intro i; exact ⟨0, rfl⟩
  | cons cell rest ih =>
    intro i
    cases cell with
    | nil => exact ⟨1, by simp [drainTraceAux, List.range_succ]⟩
    | cons w tl =>
      by_cases hd : (w.err.isSome || w.ok) = true
      · exact ⟨1, by simp [drainTraceAux, hd, List.range_succ]⟩
      · have hd2 : (w.err.isSome || w.ok) = false := by simpa using hd
        obtain ⟨k, hk⟩ := ih (i + 1)
        refine ⟨k + 1, ?_⟩
        simp only [drainTraceAux, hd2, Bool.false_eq_true, if_false, hk,
          List.range_succ_eq_map, List.map_cons, List.map_map, Nat.zero_add]
        refine congrArg (i :: ·) ?_
        refine List.map_congr_left ?_
        intro x _
        simp [Function.comp]
        omega

theorem drainTrace_is_initial_range (cells : List (List (Write V E))) :
    ∃ k, drainTrace cells = List.range k := by
  obtain ⟨k, hk⟩ := drainTraceAux_range cells 0
  refine ⟨k, ?_⟩
  simpa [drainTrace] using hk

theorem drainTraceAux_earlier_resolved (cells : List (List (Write V E))) :
    ∀ b i j, i < j → j ∈ drainTraceAux b cells → b ≤ i →
      ∃ w tl, cells.get? (i - b) = some (w :: tl) ∧ w.ok = false ∧ w.err = none := by
  induction cells with
  | nil =>
    intro b i j hij hj hbi
    simp [drainTraceAux] at hj
  | cons cell rest ih =>
    intro b i j hij hj hbi
    cases cell with
    | nil =>
      simp [drainTraceAux] at hj
      omega
    | cons w tl =>
      by_cases hd : (w.err.isSome || w.ok) = true
      · simp [drainTraceAux, hd] at hj
        omega
      · have hd2 : (w.err.isSome || w.ok) = false := by simpa using hd
        have hw2 : w.err.isSome = false ∧ w.ok = false := by simpa using hd2
        have herr : w.err = none :=
          Option.not_isSome_iff_eq_none.mp (by simp [hw2.1])
        simp only [drainTraceAux, hd2, Bool.false_eq_true, if_false,
          List.mem_cons] at hj
        rcases hj with rfl | hj2
        · omega
        · rcases Nat.eq_or_lt_of_le hbi with rfl | hbi2
          · refine ⟨w, tl, ?_, hw2.2, herr⟩
            simp
          · obtain ⟨w2, tl2, hg, h1, h2⟩ := ih (b + 1) i j hij hj2 hbi2
            refine ⟨w2, tl2, ?_, h1, h2⟩
            have hi : i - b = (i - (b + 1)) + 1 := by omega
            rw [hi]
            simpa using hg

/-- Claim C2: in the Concurrent resolver, completion cells are consulted
strictly in candidate-key order: the consultation trace of the collection
loop is an initial segment `[0, 1, ..., k-1]` of the cell indices, and
whenever a cell `j` is consulted, every earlier cell `i < j` had already
resolved with `found = false` and a nil error — so key `i` takes precedence
over key `j` no matter when key `j`'s dispatched task completes. -/
theorem cells_consulted_in_key_order (m : MultiLookup V E C) (c : C)
    (args : List GoStr) :
    (∃ k, drainTrace (concCells m c args) = List.range k) ∧
    ∀ i j, i < j → j ∈ drainTrace (concCells m c args) →
      ∃ w tl, (concCells m c args).get? i = some (w :: tl) ∧
        w.ok = false ∧ w.err = none := by
  refine ⟨drainTrace_is_initial_range _, ?_⟩
  intro i j hij hj
  have h := drainTraceAux_earlier_resolved (concCells m c args) 0 i j hij hj
    (Nat.zero_le i)
  simpa using h

/-- Claim C2 witness: for a concrete registry and two candidate keys whose
cells both resolve not-found, cell 1 is consulted only after cell 0 resolved
with `found = false` and no error. -/
theorem cells_consulted_in_key_order_witness :
    ∃ w tl, (concCells mMiss () [gs "a/x", gs "a/y"]).get? 0 = some (w :: tl) ∧
      w.ok = false ∧ w.err = none :=
  (cells_consulted_in_key_order mMiss () [gs "a/x", gs "a/y"]).2 0 1
    (by decide) (by decide)

/-- Claim C3 (amended): during one concurrent resolution call, each candidate
key's completion cell receives one write per registry entry matching that
key; so every cell is written at most once provided no candidate key is
matched by more than one registered prefix. -/
theorem cell_written_at_most_once_of_unique_match (m : MultiLookup V E C)
    (c : C) (args : List GoStr)
    (hone : ∀ a ∈ args, m.countP (fun e => e.1.matchKey a) ≤ 1) :
    ∀ cell ∈ concCells m c args, cell.length ≤ 1 := by
  intro cell hc
  obtain ⟨a, ha, rfl⟩ := List.mem_map.mp hc
  rw [dispatchCell_length]
  exact hone a ha

/-- Claim C3 witness: a single-entry registry writes the one cell of a
one-key call at most once. -/
theorem cell_written_at_most_once_of_unique_match_witness :
    (dispatchCell mEcho () (gs "a/x")).length ≤ 1 :=
  cell_written_at_most_once_of_unique_match mEcho () [gs "a/x"] (by decide)
    (dispatchCell mEcho () (gs "a/x")) (by decide)

/-- Claim C3 counterexample: the registry `mOverlap` holds two distinct map
keys (`DotPrefix "x"` and `DotPrefix "x.y"`) that both match the candidate
key `x.y.z`; the one completion cell of the call receives two writes (the
second one a send on an already-closed cell). -/
theorem double_match_double_write :
    (concCells mOverlap () [gs "x.y.z"]).map List.length = [2] ∧
    ¬ (∀ cell ∈ concCells mOverlap () [gs "x.y.z"], cell.length ≤ 1) :=
  ⟨by decide, by decide⟩

theorem seqArg_none_of_no_hit (m : MultiLookup V E C) (c : C) (a : GoStr)
    (hpure : ∀ e ∈ m, e.2.isPure = true)
    (hnf : ∀ w ∈ dispatchCell m c a, w.ok = false ∧ w.err = none) :
    seqArg m a = none := by
  induction m with
  | nil => rfl
  | cons e rest ih
  => obtain ⟨p, fn⟩ := e
     have hpure2 : ∀ q ∈ rest, q.2.isPure = true := fun q hq =>
       hpure q (List.mem_cons_of_mem _ hq)
     have hnf2 : ∀ w ∈ dispatchCell rest c a, w.ok = false ∧ w.err = none := by
       intro w hw
       refine hnf w ?_
       rw [dispatchCell_cons]
       by_cases h : p.matchKey a = true <;> simp [h, hw]
     have hrest := ih hpure2 hnf2
     by_cases h : p.matchKey a = true
     · have hwmem : invokeFn c fn (p.strip a) ∈ dispatchCell ((p, fn) :: rest) c a := by
         rw [dispatchCell_cons]
         simp [h]
       have hws := hnf _ hwmem
       have hp : fn.isPure = true := hpure (p, fn) (List.mem_cons_self _ rest)
       cases fn with
       | plain f =>
         have hok : (f (p.strip a)).2 = false := hws.1
         simp [seqArg, h, hok, hrest]
       | fallible f =>
         have hok : (f (p.strip a)).2.1 = false := hws.1
         have herr : (f (p.strip a)).2.2 = none := hws.2
         simp [seqArg, h, hok, herr, hrest]
       | contextual f => simp [LookupFunc.isPure] at hp
       | contextualFallible f => simp [LookupFunc.isPure] at hp
     · have hb : p.matchKey a = false := by simpa using h
       simp [seqArg, hb, hrest]

theorem seqWalk_none_of_no_hit (m : MultiLookup V E C) (c : C)
    (args : List GoStr)
    (hpure : ∀ e ∈ m, e.2.isPure = true)
    (hnf : ∀ a ∈ args, ∀ w ∈ dispatchCell m c a, w.ok = false ∧ w.err = none) :
    seqWalk m args = none := by
  induction args with
  | nil => rfl
  | cons a rest ih =>
    have ha := seqArg_none_of_no_hit m c a hpure (hnf a (List.mem_cons_self a rest))
    have hrest := ih fun b hb => hnf b (List.mem_cons_of_mem a hb)
    simp [seqWalk, ha, hrest]

/-- Claim C4 (amended): whenever every registered entry is `Plain`/`Fallible`
and every matching invocation reports `found = false` with a nil error
(including when nothing matches at all), the Sequential resolver returns
`MatchFailedError` carrying exactly the supplied candidate keys and the
labels of all registered prefixes; the Concurrent resolver does the same
provided every candidate key is matched by exactly one registered entry
(with an unmatched key it blocks forever instead). -/
theorem not_found_carries_args_and_labels (m : MultiLookup V E C) (c : C)
    (args : List GoStr)
    (hpure : ∀ e ∈ m, e.2.isPure = true)
    (hnf : ∀ a ∈ args, ∀ w ∈ dispatchCell m c a, w.ok = false ∧ w.err = none) :
    MultiLookup.FuncMapValue m args = .notFound args m.prefixes ∧
    ((∀ a ∈ args, m.countP (fun e => e.1.matchKey a) = 1) →
      MultiLookupContext.FuncMapValue ⟨m, some c⟩ args =
        .ok (.notFound args m.prefixes)) := by
  have hw : seqWalk m args = none := seqWalk_none_of_no_hit m c args hpure hnf
  constructor
  · simp [MultiLookup.FuncMapValue, hw]
  · intro hone
    have hlen := concCells_lengths_one m c args hone
    have hguard : (concCells m c args).any (fun ws => decide (2 ≤ ws.length)) = false := by
      rw [Bool.eq_false_iff]
      intro hcontra
      obtain ⟨ws, hws, h2⟩ := List.any_eq_true.mp hcontra
      have h1 := hlen ws hws
      have h3 := of_decide_eq_true h2
      omega
    have heq := drain_eq_seqWalk m c args (.notFound args m.prefixes) hpure hone
    simp only [MultiLookupContext.FuncMapValue, hguard, Bool.false_eq_true,
      if_false, heq, hw, Option.getD_none]

/-- Claim C4 witness: a registry whose only entry always reports not-found,
resolved for one matching key, yields `NotFound` with that key and the
registered label, on both resolvers. -/
theorem not_found_carries_args_and_labels_witness :
    MultiLookup.FuncMapValue mMiss [gs "a/x"] =
      .notFound [gs "a/x"] mMiss.prefixes ∧
    MultiLookupContext.FuncMapValue ⟨mMiss, some ()⟩ [gs "a/x"] =
      .ok (.notFound [gs "a/x"] mMiss.prefixes) := by
  have h := not_found_carries_args_and_labels mMiss () [gs "a/x"]
    (by decide) (by decide)
  exact ⟨h.1, h.2 (by decide)⟩

/-- Claim C4 counterexample: with the non-empty `Plain`-only registry `mEcho`
and the single candidate key `b/x` that matches no registered prefix, the
Concurrent resolver blocks forever on the never-written completion cell
instead of returning the `NotFound` outcome the claim requires. -/
theorem conc_unmatched_key_hangs :
    MultiLookupContext.FuncMapValue ⟨mEcho, some ()⟩ [gs "b/x"] = .hang ∧
    MultiLookupContext.FuncMapValue ⟨mEcho, some ()⟩ [gs "b/x"] ≠
      .ok (.notFound [gs "b/x"] mEcho.prefixes) :=
  ⟨by decide, by decide⟩

/-- Claim C5: the registries `mOverlap` and `mOverlapRev` hold the same
entries (they model the same Go map under two of its randomized `range`
orders) and both registered prefixes match the candidate key `x.y.z`, yet
the Sequential resolver returns `Success "1"` under one iteration order and
`Success "2"` under the other: resolution is not deterministic when more
than one registered prefix matches the same candidate key. -/
theorem map_iteration_order_changes_outcome :
    mOverlap.Perm mOverlapRev ∧
    MultiLookup.FuncMapValue mOverlap [gs "x.y.z"] = .success "1" ∧
    MultiLookup.FuncMapValue mOverlapRev [gs "x.y.z"] = .success "2" ∧
    (Outcome.success "1" : Outcome String String) ≠ .success "2" :=
  ⟨by simp only [mOverlap, mOverlapRev]; exact List.Perm.swap _ _ _,
   by decide, by decide, by decide⟩

/-- Claim C6: the `found` flag alone decides success in the Sequential
resolver: whenever the consulted `Plain` entry returns any value `v` —
including a zero/empty one — together with `found = true`, resolution
returns `Success v`, never `NotFound`. -/
theorem found_flag_sole_arbiter (p : Pfx) (f : GoStr → V × Bool) (k : GoStr)
    (v : V)
    (hm : p.matchKey k = true)
    (hf : f (p.strip k) = (v, true)) :
    MultiLookup.FuncMapValue ([(p, .plain f)] : MultiLookup V E C) [k] =
      .success v := by
  have ha : seqArg ([(p, LookupFunc.plain f)] : MultiLookup V E C) k =
      some (.success v) := by
    simp [seqArg, hm, hf]
  simp [MultiLookup.FuncMapValue, seqWalk, ha]

/-- Claim C6 witness: registering `"default" -> Plain(key => (key, true))`
and resolving `["default/X"]` yields `Success "X"`. -/
theorem found_flag_sole_arbiter_witness :
    MultiLookup.FuncMapValue
      ([(.slash (gs "default"), .plain (fun k => (String.mk k, true)))] :
        MultiLookup String String Unit)
      [gs "default/X"] = .success "X" :=
  found_flag_sole_arbiter (.slash (gs "default"))
    (fun k => (String.mk k, true)) (gs "default/X") "X" (by decide) (by decide)

theorem seqArg_append_no_match (m1 m2 : MultiLookup V E C) (k : GoStr)
    (h : ∀ q ∈ m1, q.1.matchKey k = false) :
    seqArg (m1 ++ m2) k = seqArg m2 k := by
  induction m1 with
  | nil => rfl
  | cons e rest ih =>
    obtain ⟨p, fn⟩ := e
    have he : p.matchKey k = false := h (p, fn) (List.mem_cons_self _ rest)
    have hrest := ih fun q hq => h q (List.mem_cons_of_mem _ hq)
    simp [seqArg, he, hrest]

/-- Claim C7: in sequential resolution, the first matching `Fallible` entry
returning a non-nil error makes the call return `Failure` with that error
immediately — for any later candidate keys and remaining entries, even ones
that would have yielded `found = true` — and the value and `found` flag
accompanying the error are ignored. -/
theorem fallible_error_short_circuits (m1 m2 : MultiLookup V E C) (p : Pfx)
    (f : GoStr → V × Bool × Option E) (k : GoStr) (ks : List GoStr)
    (v : V) (ok : Bool) (e : E)
    (h1 : ∀ q ∈ m1, q.1.matchKey k = false)
    (h2 : p.matchKey k = true)
    (h3 : f (p.strip k) = (v, ok, some e)) :
    MultiLookup.FuncMapValue (m1 ++ (p, .fallible f) :: m2) (k :: ks) =
      .failure e := by
  have ha : seqArg (m1 ++ (p, LookupFunc.fallible f) :: m2) k =
      some (.failure e) := by
    rw [seqArg_append_no_match _ _ _ h1]
    simp [seqArg, h2, h3]
  simp [MultiLookup.FuncMapValue, seqWalk, ha]

/-- Claim C7 witness: the `Fallible` entry under dot-prefix `err` errors on
the first key while a later key's entry would have succeeded; the resolver
still returns `Failure "boom"`. -/
theorem fallible_error_short_circuits_witness :
    MultiLookup.FuncMapValue
      (([(.slash (gs "zz"), .plain (fun q => (String.mk q, true)))] :
          MultiLookup String String Unit) ++
        (.dot (gs "err"), .fallible (fun _ => ("", false, some "boom"))) ::
        [(.dot (gs "ok"), .plain (fun q => (String.mk q, true)))])
      (gs "err.K" :: [gs "ok.K"]) = .failure "boom" :=
  fallible_error_short_circuits _ _ (.dot (gs "err"))
    (fun _ => ("", false, some "boom")) (gs "err.K") [gs "ok.K"]
    "" false "boom" (by decide) (by decide) (by decide)

/-- Claim C8 (amended): an empty registry fails validation with
`ErrNoFunctionRegistered` on the Sequential resolver unconditionally, and on
the Concurrent resolver whenever a context is bound; with an untyped-nil
context the Concurrent validator reports `ErrContextUntypedNil` first. -/
theorem empty_registry_fails_validation (c : C) :
    MultiLookup.Validate ([] : MultiLookup V E C) =
      some .noFunctionRegistered ∧
    MultiLookupContext.Validate ⟨([] : MultiLookup V E C), some c⟩ =
      some .noFunctionRegistered :=
  ⟨rfl, rfl⟩

/-- Claim C8 witness: the amended statement at a concrete instantiation. -/
theorem empty_registry_fails_validation_witness :
    MultiLookup.Validate ([] : MultiLookup String String Unit) =
      some .noFunctionRegistered ∧
    MultiLookupContext.Validate
      (⟨[], some ()⟩ : MultiLookupContext String String Unit) =
      some .noFunctionRegistered :=
  empty_registry_fails_validation ()

/-- Claim C8 counterexample: on the Concurrent resolver with an empty
registry and an untyped-nil bound context, `Validate` fails with
`ErrContextUntypedNil`, not `ErrNoFunctionRegistered` — the nil-context
check runs before the emptiness check, so the claimed error is not returned
regardless of other configuration state. -/
theorem nil_context_masks_empty_registry :
    MultiLookupContext.Validate
      (⟨[], none⟩ : MultiLookupContext String String Unit) =
      some .contextNil ∧
    MultiLookupContext.Validate
      (⟨[], none⟩ : MultiLookupContext String String Unit) ≠
      some .noFunctionRegistered :=
  ⟨by decide, by decide⟩

theorem validateEntries_finds_contextual (m : MultiLookup V E C)
    (h : ∃ e ∈ m, e.2.isContextual = true) :
    ∃ p fn, validateEntries m = some (.invalidFunction p) ∧
      (p, fn) ∈ m ∧ LookupFunc.isContextual fn = true := by
  induction m with
  | nil => simp at h
  | cons e rest ih =>
    obtain ⟨p0, fn0⟩ := e
    cases fn0 with
    | plain f =>
      have h2 : ∃ q ∈ rest, q.2.isContextual = true := by
        obtain ⟨q, hq, hc⟩ := h
        rcases List.mem_cons.mp hq with rfl | hq2
        · simp [LookupFunc.isContextual, LookupFunc.isPure] at hc
        · exact ⟨q, hq2, hc⟩
      obtain ⟨p, fn, h1, h2m, h3⟩ := ih h2
      exact ⟨p, fn, by simpa [validateEntries] using h1,
        List.mem_cons_of_mem _ h2m, h3⟩
    | fallible f =>
      have h2 : ∃ q ∈ rest, q.2.isContextual = true := by
        obtain ⟨q, hq, hc⟩ := h
        rcases List.mem_cons.mp hq with rfl | hq2
        · simp [LookupFunc.isContextual, LookupFunc.isPure] at hc
        · exact ⟨q, hq2, hc⟩
      obtain ⟨p, fn, h1, h2m, h3⟩ := ih h2
      exact ⟨p, fn, by simpa [validateEntries] using h1,
        List.mem_cons_of_mem _ h2m, h3⟩
    | contextual f =>
      exact ⟨p0, .contextual f, rfl, List.mem_cons_self _ _, rfl⟩
    | contextualFallible f =>
      exact ⟨p0, .contextualFallible f, rfl, List.mem_cons_self _ _, rfl⟩

/-- Claim C9: for every registry holding at least one `Contextual` or
`ContextualFallible` entry, `Validate` on the Sequential resolver fails with
an `InvalidFunctionError` whose `Prefix` field names an offending
(context-shaped) registered entry. -/
theorem seq_validate_rejects_contextual (m : MultiLookup V E C)
    (h : ∃ e ∈ m, e.2.isContextual = true) :
    ∃ p fn, MultiLookup.Validate m = some (.invalidFunction p) ∧
      (p, fn) ∈ m ∧ LookupFunc.isContextual fn = true := by
  have hne : m.isEmpty = false := by
    obtain ⟨q, hq, _⟩ := h
    cases m with
    | nil => simp at hq
    | cons x xs => rfl
  obtain ⟨p, fn, h1, h2, h3⟩ := validateEntries_finds_contextual m h
  exact ⟨p, fn, by simp [MultiLookup.Validate, hne, h1], h2, h3⟩

/-- Claim C9 witness: the registry `mCtx` with one `Contextual` entry fails
sequential validation, naming the offending prefix. -/
theorem seq_validate_rejects_contextual_witness :
    ∃ p fn, MultiLookup.Validate mCtx = some (.invalidFunction p) ∧
      (p, fn) ∈ mCtx ∧ LookupFunc.isContextual fn = true :=
  seq_validate_rejects_contextual mCtx (by decide)

/-- Claim C10: for every validated registry, resolving with zero candidate
keys returns `MatchFailedError` with an empty attempted-key list and the
labels of all registered prefixes — not a distinct no-arguments error — on
both the Sequential and the Concurrent resolver. -/
theorem zero_keys_yield_not_found (m : MultiLookup V E C) (c : C) :
    (MultiLookup.Validate m = none →
      MultiLookup.FuncMapValue m [] = .notFound [] m.prefixes) ∧
    (MultiLookupContext.Validate ⟨m, some c⟩ = none →
      MultiLookupContext.FuncMapValue ⟨m, some c⟩ [] =
        .ok (.notFound [] m.prefixes)) :=
  ⟨fun _ => rfl, fun _ => rfl⟩

/-- Claim C10 witness: the validated one-entry registry `mMiss`, resolved
with zero candidate keys, yields `NotFound` with empty keys and the
registered label on both resolvers. -/
theorem zero_keys_yield_not_found_witness :
    MultiLookup.FuncMapValue mMiss [] = .notFound [] mMiss.prefixes ∧
    MultiLookupContext.FuncMapValue ⟨mMiss, some ()⟩ [] =
      .ok (.notFound [] mMiss.prefixes) := by
  have h := zero_keys_yield_not_found mMiss ()
  exact ⟨h.1 (by decide), h.2 (by decide)⟩
